import Mathlib

/-!
Verification development for a real-time audio graph engine (Rust).

The Rust sources are shallowly embedded: each `def` below mirrors one
function of the source tree (`src/buffer.rs`, `src/control.rs`,
`src/context.rs`, `src/graph.rs`, `src/node/mod.rs`, `src/node/splitter.rs`).
Conventions of the embedding:

* Audio samples are `f32` in the source but are only moved, zipped,
  zero-filled and summed; they are modelled as `ℚ` so that all data
  movement is exact.
* Machine integers (`u32`, `u64`, `usize`) are modelled as `ℕ`; none of
  the modelled operations can overflow on the inputs the theorems touch,
  and `ℕ` subtraction is used exactly where the source subtracts after a
  `min` guard.
* The single floating-point computation that matters, the resample-ratio
  arithmetic `(i+1) as f32 * (new_rate as f32 / old_rate as f32)` cast to
  `usize`, is modelled exactly over `ℚ` as `⌊(i+1) · new/old⌋`; this is
  the value the `f32` computation produces whenever it is exact (all
  concrete inputs used below are exact in `f32`).
* A Rust `panic!` / failed `unwrap` / failed `assert!` on a code path a
  theorem must observe is modelled by an `Option` result (`none` =
  panic).  Buffer operations whose panics no claim observes (`extend`,
  `split_off`) are modelled by their post-assertion behaviour together
  with explicit precondition propositions.
-/

namespace WebAudio

/-- Block size of the engine; `crate::BUFFER_SIZE`.  The spec fixes it as a
compile-time constant, commonly 128; no theorem depends on its value. -/
def BUFFER_SIZE : ℕ := 128

/-- `ChannelData` from `src/buffer.rs`: a copy-on-write vector of samples.
`Arc::make_mut` gives it value semantics, so it is modelled as a plain
list of samples. -/
abbrev ChannelData := List ℚ

/-- `AudioBuffer` from `src/buffer.rs`: a matrix of channels times samples
plus a sample rate (`SampleRate` is a `u32` newtype). -/
structure AudioBuffer where
  channels : List ChannelData
  sampleRate : ℕ
  deriving DecidableEq, Repr

namespace AudioBuffer

/-- `AudioBuffer::new(channels, len, sample_rate)`: a silent buffer,
`channels` copies of `len` zero samples. -/
def new (channels len sampleRate : ℕ) : AudioBuffer :=
  { channels := List.replicate channels (List.replicate len (0 : ℚ))
    sampleRate := sampleRate }

/-- `AudioBuffer::from_channels(channels, sample_rate)`: builds the buffer
directly from the given channel vectors (the source performs no
validation whatsoever). -/
def from_channels (channels : List ChannelData) (sampleRate : ℕ) : AudioBuffer :=
  { channels := channels, sampleRate := sampleRate }

/-- `AudioBuffer::number_of_channels`. -/
def number_of_channels (b : AudioBuffer) : ℕ := b.channels.length

/-- `AudioBuffer::sample_len`: the length of channel 0, or 0 when there are
no channels. -/
def sample_len (b : AudioBuffer) : ℕ := (b.channels.headD []).length

/-- The buffer invariant stated by the spec's data model: all channels have
equal length (equivalently, all have the length `sample_len` reports). -/
def wellFormed (b : AudioBuffer) : Prop :=
  ∀ ch ∈ b.channels, ch.length = b.sample_len

instance (b : AudioBuffer) : Decidable b.wellFormed := by
  unfold wellFormed; infer_instance

/-- `AudioBuffer::extend(&mut self, other)` after its two `assert_eq!`
guards: per-channel append of `other`'s samples (the asserts are the
separate precondition `extendOk`). -/
def extend (b other : AudioBuffer) : AudioBuffer :=
  { channels := b.channels.zipWith (fun c oc => c ++ oc) other.channels
    sampleRate := b.sampleRate }

/-- The `assert_eq!` preconditions of `AudioBuffer::extend`: equal sample
rates and equal channel counts (violating them panics in the source). -/
def extendOk (b other : AudioBuffer) : Prop :=
  b.sampleRate = other.sampleRate ∧ b.number_of_channels = other.number_of_channels

instance (b other : AudioBuffer) : Decidable (b.extendOk other) := by
  unfold extendOk; infer_instance

/-- `AudioBuffer::split_off(&mut self, index)`: mutates `self` to its first
`index` samples per channel and returns the remainder.  Modelled as the
pair (mutated self, returned remainder).  `Vec::split_off` panics when
`index` exceeds a channel's length; that precondition is `splitOffOk`. -/
def split_off (b : AudioBuffer) (index : ℕ) : AudioBuffer × AudioBuffer :=
  ({ channels := b.channels.map (fun c => c.take index), sampleRate := b.sampleRate },
   { channels := b.channels.map (fun c => c.drop index), sampleRate := b.sampleRate })

/-- Precondition of `split_off`: the index is within every channel. -/
def splitOffOk (b : AudioBuffer) (index : ℕ) : Prop :=
  ∀ ch ∈ b.channels, index ≤ ch.length

/-- The per-channel loop body of `AudioBuffer::resample`: walking the input
with running index `i` and emitted-count `current`, each sample `v` is
repeated `target - min current target` times where
`target = ⌊(i+1) · rate⌋` (the `usize` cast of the nonnegative `f32`
product truncates, i.e. floors). -/
def resampleGo (rate : ℚ) : ℕ → ℕ → List ℚ → List ℚ
  | _, _, [] => []
  | i, current, v :: rest =>
      let target : ℕ := (⌊((i : ℚ) + 1) * rate⌋).toNat
      let take := target - min current target
      List.replicate take v ++ resampleGo rate (i + 1) (current + take) rest

/-- `AudioBuffer::resample(sample_rate)`: early-returns when the rate is
unchanged, otherwise rewrites every channel by nearest-neighbour
stretching with ratio `new_rate / old_rate` and updates the rate field. -/
def resample (b : AudioBuffer) (sampleRate : ℕ) : AudioBuffer :=
  if b.sampleRate = sampleRate then b
  else
    { channels := b.channels.map
        (resampleGo ((sampleRate : ℚ) / (b.sampleRate : ℚ)) 0 0)
      sampleRate := sampleRate }

end AudioBuffer

/-- The opaque boxed error type carried by a media stream item
(`Box<dyn Error + Send>`); its identity never matters to the claims. -/
abbrev MediaErr := Unit

/-- `Resampler<M>` from `src/buffer.rs`: target sample rate, target chunk
length, the remaining input stream (a `MediaStream` is an iterator of
`Result<AudioBuffer, _>`, modelled as the list of items it will still
yield) and the stashed internal buffer. -/
structure Resampler where
  sampleRate : ℕ
  sampleLen : ℕ
  input : List (Except MediaErr AudioBuffer)
  buffer : Option AudioBuffer
  deriving Repr

instance : DecidableEq (Except MediaErr AudioBuffer) := fun a b =>
  match a, b with
  | .ok x, .ok y => decidable_of_iff (x = y) (by simp)
  | .error x, .error y => decidable_of_iff (x = y) (by simp)
  | .ok _, .error _ => isFalse (by simp)
  | .error _, .ok _ => isFalse (by simp)

instance : DecidableEq Resampler := fun a b =>
  decidable_of_iff
    (a.sampleRate = b.sampleRate ∧ a.sampleLen = b.sampleLen ∧
      a.input = b.input ∧ a.buffer = b.buffer)
    (by cases a; cases b; simp)

namespace Resampler

/-- The `while` loop of `Resampler::next`, entered with the working buffer
taken out of `self.buffer`: refill from the input until the buffer holds
at least `sample_len` samples, pad the tail chunk with silence when the
input runs dry, and stash the overflow back into `self.buffer`.
The loop consumes one input item per iteration, so it recurses on the
input list. -/
def nextLoop (sampleRate sampleLen : ℕ) :
    AudioBuffer → List (Except MediaErr AudioBuffer) →
    Option (Except MediaErr AudioBuffer) × List (Except MediaErr AudioBuffer) × Option AudioBuffer
  | buffer, [] =>
      if buffer.sample_len < sampleLen then
        let padding := AudioBuffer.new buffer.number_of_channels
          (sampleLen - buffer.sample_len) sampleRate
        (some (.ok (buffer.extend padding)), [], none)
      else if buffer.sample_len = sampleLen then
        (some (.ok buffer), [], none)
      else
        let parts := buffer.split_off sampleLen
        (some (.ok parts.1), [], some parts.2)
  | buffer, item :: rest =>
      if buffer.sample_len < sampleLen then
        match item with
        | .error e => (some (.error e), rest, none)
        | .ok data => nextLoop sampleRate sampleLen (buffer.extend (data.resample sampleRate)) rest
      else if buffer.sample_len = sampleLen then
        (some (.ok buffer), item :: rest, none)
      else
        let parts := buffer.split_off sampleLen
        (some (.ok parts.1), item :: rest, some parts.2)

/-- `Resampler::next`: takes the stashed buffer or pulls (and resamples)
the first input item, then runs the refill loop.  Returns the yielded
item together with the successor state. -/
def next (st : Resampler) : Option (Except MediaErr AudioBuffer) × Resampler :=
  match st.buffer with
  | some data =>
      let r := nextLoop st.sampleRate st.sampleLen data st.input
      (r.1, { st with input := r.2.1, buffer := r.2.2 })
  | none =>
      match st.input with
      | [] => (none, { st with buffer := none })
      | .error e :: rest => (some (.error e), { st with input := rest, buffer := none })
      | .ok data :: rest =>
          let r := nextLoop st.sampleRate st.sampleLen (data.resample st.sampleRate) rest
          (r.1, { st with input := r.2.1, buffer := r.2.2 })

end Resampler

/-- A 64-bit float as the `Controller` stores it: the code only moves the
value, swaps it with NaN and tests `is_nan`, so the payload of a
non-NaN float is modelled as an exact `ℚ`. -/
inductive F64 where
  | nan : F64
  | val (x : ℚ) : F64
  deriving DecidableEq, Repr

/-- `Controller` from `src/control.rs` (the atomic cells have value
semantics for a single thread): pending seek (NaN = none), loop flag and
loop bounds.  The embedded `Scheduler` is not consulted by any claim and
is omitted from the record. -/
structure Controller where
  seek : F64
  loop_enabled : Bool
  loop_start : F64
  loop_end : F64
  deriving DecidableEq, Repr

namespace Controller

/-- `Controller::new()`: NaN seek niche (no pending seek), looping off. -/
def new : Controller :=
  { seek := F64.nan, loop_enabled := false, loop_start := F64.val 0, loop_end := F64.nan }

/-- `Controller::seek(timestamp)`: store the timestamp. -/
def seekTo (c : Controller) (timestamp : F64) : Controller :=
  { c with seek := timestamp }

/-- `Controller::should_seek()`: atomically swap the seek cell with NaN and
return the previous value unless it was NaN.  Modelled as (result,
successor state). -/
def should_seek (c : Controller) : Option F64 × Controller :=
  let prev := c.seek
  let c' := { c with seek := F64.nan }
  match prev with
  | F64.nan => (none, c')
  | F64.val x => (some (F64.val x), c')

end Controller

/-- Control messages of the control→render channel.  Modelled from the
spec: the `ControlMessage` enum itself lives in a module that is not part
of the given sources (`crate::control` / `crate::message`); the spec
lists `RegisterNode`, `ConnectNode`, `DisconnectNode`, `DisconnectAll`,
`FreeWhenFinished` and `AudioParamEvent`.  Only the payload-light
variants the claims observe are carried here. -/
inductive ControlMessage where
  | connectNode (from_ dest output input : ℕ)
  | disconnectNode (from_ dest : ℕ)
  | disconnectAll (from_ : ℕ)
  | freeWhenFinished (id : ℕ)
  deriving DecidableEq, Repr

/-- `DESTINATION_NODE_ID` from `src/context.rs`. -/
def DESTINATION_NODE_ID : ℕ := 0

/-- `LISTENER_NODE_ID` from `src/context.rs`. -/
def LISTENER_NODE_ID : ℕ := 1

/-- `LISTENER_PARAM_IDS` from `src/context.rs`: the half-open range
`2..12`, i.e. the ten ids 2,3,…,11. -/
def LISTENER_PARAM_IDS : List ℕ := List.range' 2 10

/-- The condition computed by `Drop for AudioContextRegistration`
(`src/context.rs`): the id is one of the "magic" ids of the destination,
the listener, or the listener-parameter range. -/
def isMagicId (id : ℕ) : Bool :=
  id = DESTINATION_NODE_ID || id = LISTENER_NODE_ID || LISTENER_PARAM_IDS.contains id

/-- The messages `Drop for AudioContextRegistration` sends on the render
channel: `FreeWhenFinished{id}` unless the id is magic. -/
def registrationDropMessages (id : ℕ) : List ControlMessage :=
  if isMagicId id then [] else [ControlMessage.freeWhenFinished id]

/-- `crate::IndexSizeError` returned by `connect_at`. -/
structure IndexSizeError where
  deriving DecidableEq, Repr

/-- `AudioNode::connect_at(dest, output, input)` from `src/node/mod.rs`,
restricted to the same-context path (differing contexts panic before the
port check).  Arguments carry the two nodes' declared port counts and
their ids; the result pairs the returned value with the list of control
messages sent to the render thread. -/
def connect_at (selfId destId : ℕ) (numOutputs numInputs : ℕ) (output input : ℕ) :
    Except IndexSizeError Unit × List ControlMessage :=
  if numOutputs ≤ output ∨ numInputs ≤ input then
    (.error {}, [])
  else
    (.ok (), [ControlMessage.connectNode selfId destId output input])

/-- `ChannelCountMode` from `src/buffer.rs`. -/
inductive ChannelCountMode where
  | Max | ClampedMax | Explicit
  deriving DecidableEq, Repr

/-- `ChannelInterpretation` from `src/buffer.rs`. -/
inductive ChannelInterpretation where
  | Speakers | Discrete
  deriving DecidableEq, Repr

/-- `ChannelConfig` from `src/buffer.rs`: the three atomically shared
fields, with value semantics (all claims are single-threaded). -/
structure ChannelConfig where
  count : ℕ
  mode : ChannelCountMode
  interpretation : ChannelInterpretation
  deriving DecidableEq, Repr

/-- Elementwise sum of two channels of equal length. -/
def chAdd (a b : ChannelData) : ChannelData := List.zipWith (· + ·) a b

/-- A channel scaled by a constant. -/
def chScale (k : ℚ) (a : ChannelData) : ChannelData := a.map (k * ·)

/-- A silent channel of the given length. -/
def chZero (len : ℕ) : ChannelData := List.replicate len (0 : ℚ)

/-- Modelled from the spec: the up/down-mix coefficient `√½` used by the
fixed speaker matrices.  `AudioBuffer::mix` is referenced from
`src/graph.rs` but its body is not among the given sources, and the spec
fixes the matrix *pairs* without listing coefficient values; this
rational stands in for the `f32` constant and no theorem depends on it. -/
def sqrtHalfApprox : ℚ := 7071 / 10000

/-- Modelled from the spec: the fixed `Speakers` up/down-mix matrices for
the channel-count pairs the spec lists (1↔2, 1↔4, 1↔5.1, 2↔4, 2↔5.1,
4↔5.1 downwards); `none` for every other pair, which falls back to
`Discrete`. -/
def speakersMix (chans : List ChannelData) (target : ℕ) : Option (List ChannelData) :=
  let len := (chans.headD []).length
  match chans, target with
  | [m], 2 => some [m, m]
  | [m], 4 => some [m, m, chZero len, chZero len]
  | [m], 6 => some [chZero len, chZero len, m, chZero len, chZero len, chZero len]
  | [l, r], 1 => some [chScale (1/2) (chAdd l r)]
  | [l, r], 4 => some [l, r, chZero len, chZero len]
  | [l, r], 6 => some [l, r, chZero len, chZero len, chZero len, chZero len]
  | [l, r, sl, sr], 1 => some [chScale (1/4) (chAdd (chAdd l r) (chAdd sl sr))]
  | [l, r, sl, sr], 2 => some [chScale (1/2) (chAdd l sl), chScale (1/2) (chAdd r sr)]
  | [l, r, c, _lfe, sl, sr], 1 =>
      some [chAdd (chAdd (chScale sqrtHalfApprox (chAdd l r)) c)
              (chScale (1/2) (chAdd sl sr))]
  | [l, r, c, _lfe, sl, sr], 2 =>
      some [chAdd l (chScale sqrtHalfApprox (chAdd c sl)),
            chAdd r (chScale sqrtHalfApprox (chAdd c sr))]
  | [l, r, c, _lfe, sl, sr], 4 =>
      some [chAdd l (chScale sqrtHalfApprox c), chAdd r (chScale sqrtHalfApprox c), sl, sr]
  | _, _ => none

namespace AudioBuffer

/-- Modelled from the spec: `AudioBuffer::mix(target, interpretation)`
(referenced from `src/graph.rs`, body not among the given sources).
`Discrete` truncates extra channels and zero-pads missing ones;
`Speakers` applies the fixed matrices for the listed pairs and falls
back to `Discrete` otherwise. -/
def mix (b : AudioBuffer) (target : ℕ) (interp : ChannelInterpretation) : AudioBuffer :=
  if b.number_of_channels = target then b
  else
    let discrete : List ChannelData :=
      b.channels.take target ++ List.replicate (target - b.number_of_channels) (chZero b.sample_len)
    match interp with
    | .Discrete => { b with channels := discrete }
    | .Speakers =>
        match speakersMix b.channels target with
        | some cs => { b with channels := cs }
        | none => { b with channels := discrete }

/-- Modelled from the spec: `AudioBuffer::add(other, interpretation)`
(referenced from `src/graph.rs`, body not among the given sources): the
operand with fewer channels is mixed up to the larger count under the
interpretation, then channels are summed elementwise. -/
def add (b other : AudioBuffer) (interp : ChannelInterpretation) : AudioBuffer :=
  let n := max b.number_of_channels other.number_of_channels
  let b' := b.mix n interp
  let o' := other.mix n interp
  { channels := List.zipWith chAdd b'.channels o'.channels, sampleRate := b.sampleRate }

end AudioBuffer

/-- An edge of the graph (`src/graph.rs`): `((src_id, output_port),
(dst_id, input_port))`.  `NodeIndex` is a `u64` newtype and ports are
`u32`; both are modelled as `ℕ`. -/
abbrev Edge := (ℕ × ℕ) × (ℕ × ℕ)

/-- `Graph::children(node)`: sources of the edges arriving at `node`, in
edge-set iteration order (the `HashSet` iteration order is
implementation-defined; the model keeps list order and every ordering
theorem holds for all list orders). -/
def childrenList (edges : List Edge) (n : ℕ) : List ℕ :=
  (edges.filter (fun e => e.2.1 == n)).map (fun e => e.1.1)

/-- The node ids the depth-first visit can ever reach: the root 0 plus the
source id of every edge. -/
def nodeList (edges : List Edge) : List ℕ :=
  0 :: edges.map (fun e => e.1.1)

/-- `Graph::visit(n, marked, ordered)` (`src/graph.rs`): skip `n` when
marked, otherwise mark it, recurse into its children and prepend `n` to
the order.  The Rust recursion is bounded by the marking (a node is
never revisited); the model makes this explicit with a fuel argument
that `orderNodes` instantiates large enough for fuel never to run out.
The state is `(marked, ordered)`. -/
def visitF : ℕ → List Edge → ℕ → List ℕ × List ℕ → List ℕ × List ℕ
  | 0, _, _, s => s
  | fuel + 1, edges, n, s =>
      if n ∈ s.1 then s
      else
        let s' := (childrenList edges n).foldl (fun t c => visitF fuel edges c t) (n :: s.1, s.2)
        (s'.1, n :: s'.2)

/-- `Graph::order_nodes` (`src/graph.rs`): clear both scratch vectors,
depth-first visit from the root `NodeIndex(0)`, then reverse. -/
def orderNodes (edges : List Edge) : List ℕ :=
  ((visitF ((nodeList edges).dedup.length + 1) edges 0 ([], [])).2).reverse

/-- The processors of the render side (`dyn Render`).  The only processor
implementation among the given sources is the `TestNode` of the
`src/graph.rs` tests, whose `process` leaves its outputs untouched. -/
inductive Processor where
  | testNode
  deriving DecidableEq, Repr

/-- `Render::process` dispatch. -/
def Processor.run : Processor → List AudioBuffer → List AudioBuffer → ℚ → ℕ → List AudioBuffer
  | .testNode, _inputs, outputs, _timestamp, _sampleRate => outputs

/-- `Node` from `src/graph.rs`: processor, one output buffer per output
port, declared input/output counts, channel config. -/
structure GraphNode where
  processor : Processor
  buffers : List AudioBuffer
  inputs : ℕ
  outputs : ℕ
  channel_config : ChannelConfig
  deriving DecidableEq, Repr

/-- Lookup in the node map (`HashMap<NodeIndex, Node>` as an association
list). -/
def assocGet (nodes : List (ℕ × GraphNode)) (k : ℕ) : Option GraphNode :=
  (nodes.find? (fun p => p.1 == k)).map (·.2)

/-- Removal from the node map. -/
def assocRemove (nodes : List (ℕ × GraphNode)) (k : ℕ) : List (ℕ × GraphNode) :=
  nodes.filter (fun p => p.1 != k)

/-- Insertion (replacing any previous binding) into the node map. -/
def assocInsert (nodes : List (ℕ × GraphNode)) (k : ℕ) (v : GraphNode) : List (ℕ × GraphNode) :=
  assocRemove nodes k ++ [(k, v)]

/-- `Graph` from `src/graph.rs`: node map, edge set and the cached
topological order (the `marked` scratch vector is cleared on every
re-sort and never observed, so it is not part of the state). -/
structure Graph where
  nodes : List (ℕ × GraphNode)
  edges : List Edge
  ordered : List ℕ
  deriving DecidableEq, Repr

namespace Graph

/-- `Graph::add_node`: insert the node record; the output buffers are
pre-allocated with 1 channel (hard-coded `//todo` in the source) at
`BUFFER_SIZE` samples and sample rate 0.  Node registration does not
re-sort. -/
def add_node (g : Graph) (index : ℕ) (processor : Processor)
    (inputs outputs : ℕ) (config : ChannelConfig) : Graph :=
  let rec_ : GraphNode :=
    { processor := processor
      buffers := List.replicate outputs (AudioBuffer.new 1 BUFFER_SIZE 0)
      inputs := inputs
      outputs := outputs
      channel_config := config }
  { g with nodes := assocInsert g.nodes index rec_ }

/-- `Graph::new(root, channel_config)`: order and marking start as
`[root]`, and the root node is registered with 1 input and 1 output. -/
def new (root : Processor) (config : ChannelConfig) : Graph :=
  add_node { nodes := [], edges := [], ordered := [0] } 0 root 1 1 config

/-- `Graph::add_edge(source, dest)`: `HashSet::insert` (idempotent on
duplicates), then re-sort. -/
def add_edge (g : Graph) (source dest : ℕ × ℕ) : Graph :=
  let edges' := if (source, dest) ∈ g.edges then g.edges else g.edges ++ [(source, dest)]
  { g with edges := edges', ordered := orderNodes edges' }

/-- `Graph::remove_edge(source, dest)`: retain the edges whose endpoints
differ from the given node pair, then re-sort. -/
def remove_edge (g : Graph) (source dest : ℕ) : Graph :=
  let edges' := g.edges.filter (fun e => e.1.1 != source || e.2.1 != dest)
  { g with edges := edges', ordered := orderNodes edges' }

/-- `Graph::remove_edges_from(source)`: retain the edges not leaving
`source`, then re-sort. -/
def remove_edges_from (g : Graph) (source : ℕ) : Graph :=
  let edges' := g.edges.filter (fun e => e.1.1 != source)
  { g with edges := edges', ordered := orderNodes edges' }

/-- Processing of one node of the order inside `Graph::render`: remove the
node from the map (`unwrap` panics when absent), build one silent input
buffer per input port, fold every incoming edge into the input buffers
(`unwrap` panics when the edge's source node is absent; indexing panics
when a port is out of range), coerce the channel counts, run the
processor and re-insert the node.  `none` models a panic. -/
def renderNode (nodes : List (ℕ × GraphNode)) (edges : List Edge) (index : ℕ)
    (timestamp : ℚ) (sampleRate : ℕ) : Option (List (ℕ × GraphNode)) :=
  match assocGet nodes index with
  | none => none
  | some node =>
    let rest := assocRemove nodes index
    let channels := node.channel_config.count
    let init : Option (List AudioBuffer) :=
      some (List.replicate node.inputs (AudioBuffer.new channels BUFFER_SIZE sampleRate))
    let incoming := (edges.filter (fun e => e.2.1 == index)).map (fun e => (e.1, e.2.2))
    let bufsO := incoming.foldl (fun acc sp =>
      match acc with
      | none => none
      | some bufs =>
        match assocGet rest sp.1.1 with
        | none => none
        | some srcNode =>
          match srcNode.buffers.get? sp.1.2 with
          | none => none
          | some signal =>
            match bufs.get? sp.2 with
            | none => none
            | some buf =>
                some (bufs.set sp.2 (buf.add signal srcNode.channel_config.interpretation)))
      init
    match bufsO with
    | none => none
    | some bufs =>
      let mixed := bufs.map (fun inputBuf =>
        let cur := inputBuf.number_of_channels
        let newc := match node.channel_config.mode with
          | .Max => cur
          | .Explicit => node.channel_config.count
          | .ClampedMax => min cur node.channel_config.count
        inputBuf.mix newc node.channel_config.interpretation)
      let buffers' := node.processor.run mixed node.buffers timestamp sampleRate
      some (assocInsert rest index { node with buffers := buffers' })

/-- `Graph::render(timestamp, sample_rate)`: process every node of the
cached order in turn, then return the first output buffer of the
destination node 0 (both lookups `unwrap`).  `none` models a panic on
the render thread. -/
def render (g : Graph) (timestamp : ℚ) (sampleRate : ℕ) : Option (Graph × AudioBuffer) :=
  match g.ordered.foldl
      (fun acc i => acc.bind (fun ns => renderNode ns g.edges i timestamp sampleRate))
      (some g.nodes) with
  | none => none
  | some nodes' =>
    match assocGet nodes' 0 with
    | none => none
    | some dest =>
      match dest.buffers.get? 0 with
      | none => none
      | some out => some ({ g with nodes := nodes' }, out)

end Graph

/-- Modelled from the spec: `crate::alloc::AudioBuffer`, the fixed
render-side buffer (`src/node/splitter.rs` consumes it; `alloc.rs` is
not among the given sources).  The spec fixes render-side buffers as
pre-allocated channel blocks of exactly `BUFFER_SIZE` samples. -/
structure FixedAudioBuffer where
  channels : List ChannelData
  deriving DecidableEq, Repr

namespace FixedAudioBuffer

/-- Modelled from the spec: number of channels of a render-side buffer. -/
def number_of_channels (b : FixedAudioBuffer) : ℕ := b.channels.length

/-- Modelled from the spec: `force_mono` leaves the buffer with a single
channel (its first). -/
def force_mono (b : FixedAudioBuffer) : FixedAudioBuffer :=
  { channels := [b.channels.headD (chZero BUFFER_SIZE)] }

/-- Modelled from the spec: `make_silent` leaves a single silent channel of
the quantum size. -/
def make_silent (_b : FixedAudioBuffer) : FixedAudioBuffer :=
  { channels := [chZero BUFFER_SIZE] }

end FixedAudioBuffer

/-- `ChannelSplitterRenderer::process` from `src/node/splitter.rs`: takes
`inputs[0]` (indexing an empty slice panics), asserts that the declared
output count matches the output slice, then for each output `i` forces
it mono and either overwrites its only channel with input channel `i` or
makes it silent.  `none` models a panic / failed assert. -/
def channelSplitterProcess (numberOfOutputs : ℕ)
    (inputs outputs : List FixedAudioBuffer) : Option (List FixedAudioBuffer) :=
  match inputs with
  | [] => none
  | input :: _ =>
    if numberOfOutputs = outputs.length then
      some ((List.range outputs.length).zip outputs |>.map (fun p =>
        let afterMono := p.2.force_mono
        if p.1 < input.number_of_channels then
          { afterMono with channels := [input.channels.getD p.1 []] }
        else
          afterMono.make_silent))
    else none

/-! ## Shared helper facts -/

/-- The channel config of the `src/graph.rs` tests (`ChannelConfigOptions
{ count: 2, mode: Explicit, interpretation: Speakers }`). -/
def testConfig : ChannelConfig :=
  { count := 2, mode := ChannelCountMode.Explicit, interpretation := ChannelInterpretation.Speakers }

/-- `a` occurs strictly before `b` in the list. -/
def beforeIn (l : List ℕ) (a b : ℕ) : Prop :=
  ∃ i j, i < j ∧ l.get? i = some a ∧ l.get? j = some b

/-! ## C5: which registration ids skip FreeWhenFinished on drop -/

/-- The reserved ids as the spec words them: `0` (destination), `1`
(listener) and `2..=10` (the nine listener parameters). -/
def specReservedIds : List ℕ := List.range 11

/-- C5: the code and the spec disagree at id 11.  The spec reserves the
ids 0..=10 (nine listener parameters), so dropping a registration with
id 11 must enqueue `FreeWhenFinished{11}`; the source's
`LISTENER_PARAM_IDS` is the ten-id range `2..12`, so the drop of id 11
is treated as magic and sends nothing (the first user-created node of a
context receives exactly this id and is therefore never freed).  Id 12
behaves as specified again. -/
theorem registration_drop_id11_is_swallowed :
    registrationDropMessages 11 = [] ∧
    (11 : ℕ) ∉ specReservedIds ∧
    registrationDropMessages 12 = [ControlMessage.freeWhenFinished 12] ∧
    (∀ id ∈ specReservedIds, registrationDropMessages id = []) := by
  refine ⟨rfl, by decide, rfl, by decide⟩

/-! ## C6: AudioBuffer::from_channels performs no validation -/

/-- C6 counterexample: `from_channels` succeeds on channels of unequal
lengths (there is no `UnequalChannelLengths` failure anywhere in the
source), so it returns a buffer violating the equal-length invariant. -/
theorem from_channels_accepts_unequal_lengths :
    (AudioBuffer.from_channels [[0], [0, 0]] 44100).channels = [[0], [0, 0]] ∧
    ¬ (AudioBuffer.from_channels [[0], [0, 0]] 44100).wellFormed := by
  exact ⟨rfl, by decide⟩

/-- C6 amended: `from_channels` is a plain constructor; it returns the
given channels and rate unchanged, and the equal-length invariant holds
for the result exactly when the supplied vectors already had equal
lengths. -/
theorem from_channels_is_unchecked (channels : List ChannelData) (sampleRate : ℕ) :
    (AudioBuffer.from_channels channels sampleRate).channels = channels ∧
    (AudioBuffer.from_channels channels sampleRate).sampleRate = sampleRate ∧
    ((AudioBuffer.from_channels channels sampleRate).wellFormed ↔
      ∀ ch ∈ channels, ch.length = (channels.headD []).length) := by
  refine ⟨rfl, rfl, Iff.rfl⟩

/-! ## C8: Controller::seek / should_seek -/

/-- C8 counterexample: the claim quantifies over every value `x`, but the
source uses NaN as the "no pending seek" niche, so after `seek(NaN)` the
next `should_seek()` returns `None`, not `Some(NaN)`. -/
theorem should_seek_after_seek_nan_is_none :
    (Controller.should_seek (Controller.new.seekTo F64.nan)).1 = none ∧
    (Controller.should_seek (Controller.new.seekTo F64.nan)).1 ≠ some F64.nan := by
  exact ⟨rfl, by decide⟩

/-- C8 amended: for every non-NaN value `x`, after `seek(x)` the next
`should_seek()` returns `Some(x)`, and the successor state is a fixed
point on which every subsequent call returns `None` (until another
seek), so `Some` is produced at most once per seek. -/
theorem should_seek_consumes_seek_once (c : Controller) (x : ℚ) :
    (Controller.should_seek (c.seekTo (F64.val x))).1 = some (F64.val x) ∧
    Controller.should_seek (Controller.should_seek (c.seekTo (F64.val x))).2 =
      (none, (Controller.should_seek (c.seekTo (F64.val x))).2) := by
  exact ⟨rfl, rfl⟩

/-! ## C9: connect_at rejects invalid ports without sending -/

/-- C9: whenever the output port is at least the source's output count or
the input port is at least the destination's input count, `connect_at`
returns `IndexSizeError` and sends no message to the render thread. -/
theorem connect_at_invalid_port_sends_nothing
    (selfId destId numOutputs numInputs output input : ℕ)
    (h : numOutputs ≤ output ∨ numInputs ≤ input) :
    connect_at selfId destId numOutputs numInputs output input = (.error {}, []) := by
  unfold connect_at
  rw [if_pos h]

/-- Witness for C9 at the concrete ports of a 1-output, 1-input pair. -/
theorem connect_at_invalid_port_sends_nothing_witness :
    ((1 : ℕ) ≤ 1 ∨ (1 : ℕ) ≤ 0) ∧
    connect_at 7 8 1 1 1 0 = (.error {}, []) :=
  ⟨Or.inl (le_refl 1), connect_at_invalid_port_sends_nothing 7 8 1 1 1 0 (Or.inl (le_refl 1))⟩

/-! ## C2: render with an edge whose source node is absent -/

/-- C2: the code, evaluated at the failing input.  Connecting the
unregistered node 5 to the destination is not ignored: the edge enters
the edge set, node 5 enters the render order, and `Graph::render` then
panics on `nodes.remove(index).unwrap()` (modelled as `none`) instead of
producing silence for the dangling connection.  The same graph without
that edge renders fine. -/
theorem render_panics_on_absent_edge_source :
    ((Graph.new Processor.testNode testConfig).add_edge (5, 0) (0, 0)).edges =
      [((5, 0), (0, 0))] ∧
    ((Graph.new Processor.testNode testConfig).add_edge (5, 0) (0, 0)).ordered = [5, 0] ∧
    ((Graph.new Processor.testNode testConfig).add_edge (5, 0) (0, 0)).render 0 44100 = none ∧
    ((Graph.new Processor.testNode testConfig).render 0 44100).isSome = true := by
  refine ⟨rfl, by decide, by decide, by decide⟩

/-! ## C10: ChannelSplitterRenderer::process routing -/

/-- C10: with the declared output count matching the output slice, the
splitter forces every output to a single channel; output `j` carries
input channel `j` when the first input has more than `j` channels and a
silent channel otherwise. -/
theorem channel_splitter_routes_channels
    (numberOfOutputs : ℕ) (input : FixedAudioBuffer)
    (restInputs outputs : List FixedAudioBuffer)
    (h : numberOfOutputs = outputs.length) :
    ∃ outs, channelSplitterProcess numberOfOutputs (input :: restInputs) outputs = some outs ∧
      outs.length = outputs.length ∧
      ∀ j, j < outputs.length →
        (outs.getD j ⟨[]⟩).number_of_channels = 1 ∧
        outs.getD j ⟨[]⟩ =
          (if j < input.number_of_channels then ⟨[input.channels.getD j []]⟩
           else ⟨[chZero BUFFER_SIZE]⟩) := by
  subst h
  refine ⟨((List.range outputs.length).zip outputs).map
      (fun p => if p.1 < input.number_of_channels
        then ⟨[input.channels.getD p.1 []]⟩
        else p.2.force_mono.make_silent), ?_, ?_, ?_⟩
  · show (if outputs.length = outputs.length then
        some (((List.range outputs.length).zip outputs).map
          (fun p => if p.1 < input.number_of_channels
            then (⟨[input.channels.getD p.1 []]⟩ : FixedAudioBuffer)
            else p.2.force_mono.make_silent)) else none) = _
    rw [if_pos rfl]
  · simp
  · intro j hj
    have hjj : j < (((List.range outputs.length).zip outputs).map
        (fun p => if p.1 < input.number_of_channels
          then (⟨[input.channels.getD p.1 []]⟩ : FixedAudioBuffer)
          else p.2.force_mono.make_silent)).length := by
      simpa using hj
    rw [List.getD_eq_getElem _ _ hjj]
    rw [List.getElem_map]
    have hb1 : j < ((List.range outputs.length).zip outputs).length := by simpa using hj
    have hz : ((List.range outputs.length).zip outputs)[j] = (j, outputs[j]) := by
      rw [List.getElem_zip]
      simp
    rw [hz]
    by_cases hc : j < input.number_of_channels
    · simp only [if_pos hc]
      exact ⟨rfl, trivial⟩
    · simp only [if_neg hc]
      exact ⟨rfl, rfl⟩

/-- Witness for C10 on a 2-channel input split into 3 outputs. -/
theorem channel_splitter_routes_channels_witness :
    (3 : ℕ) = ([⟨[[9]]⟩, ⟨[[8]]⟩, ⟨[[7]]⟩] : List FixedAudioBuffer).length ∧
    ∃ outs, channelSplitterProcess 3 [⟨[[1, 1], [2, 2]]⟩] [⟨[[9]]⟩, ⟨[[8]]⟩, ⟨[[7]]⟩] = some outs ∧
      outs.length = ([⟨[[9]]⟩, ⟨[[8]]⟩, ⟨[[7]]⟩] : List FixedAudioBuffer).length ∧
      ∀ j, j < ([⟨[[9]]⟩, ⟨[[8]]⟩, ⟨[[7]]⟩] : List FixedAudioBuffer).length →
        (outs.getD j ⟨[]⟩).number_of_channels = 1 ∧
        outs.getD j ⟨[]⟩ =
          (if j < (⟨[[1, 1], [2, 2]]⟩ : FixedAudioBuffer).number_of_channels then
            ⟨[(⟨[[1, 1], [2, 2]]⟩ : FixedAudioBuffer).channels.getD j []]⟩
           else ⟨[chZero BUFFER_SIZE]⟩) :=
  ⟨rfl, channel_splitter_routes_channels 3 ⟨[[1, 1], [2, 2]]⟩ [] [⟨[[9]]⟩, ⟨[[8]]⟩, ⟨[[7]]⟩] rfl⟩

/-! ## C4: Resampler re-chunking -/

/-- C4: the re-chunker scenario and the general underflow/overflow
behaviour of `Resampler::next`.  Conjuncts: (1)–(3) the literal spec
scenario — three `[1,2,3,4,5]` buffers at the target rate re-chunked to
10 yield `[1,…,5,1,…,5]`, then `[1,…,5,0,…,0]`, then `None`; (4) a
stashed buffer longer than the chunk size is split, the head chunk is
yielded and the remainder is stashed for the next call; (5) with the
input exhausted, an underfull buffer is padded with silence to the chunk
length. -/
theorem resampler_chunks_pad_and_stash :
    (Resampler.next ⟨44100, 10,
        [.ok ⟨[[1, 2, 3, 4, 5]], 44100⟩, .ok ⟨[[1, 2, 3, 4, 5]], 44100⟩,
         .ok ⟨[[1, 2, 3, 4, 5]], 44100⟩], none⟩ =
      (some (.ok ⟨[[1, 2, 3, 4, 5, 1, 2, 3, 4, 5]], 44100⟩),
       ⟨44100, 10, [.ok ⟨[[1, 2, 3, 4, 5]], 44100⟩], none⟩)) ∧
    (Resampler.next ⟨44100, 10, [.ok ⟨[[1, 2, 3, 4, 5]], 44100⟩], none⟩ =
      (some (.ok ⟨[[1, 2, 3, 4, 5, 0, 0, 0, 0, 0]], 44100⟩), ⟨44100, 10, [], none⟩)) ∧
    (Resampler.next ⟨44100, 10, [], none⟩ = (none, ⟨44100, 10, [], none⟩)) ∧
    (∀ (st : Resampler) (b : AudioBuffer), st.buffer = some b →
      st.sampleLen < b.sample_len →
      st.next = (some (.ok (b.split_off st.sampleLen).1),
        { st with buffer := some (b.split_off st.sampleLen).2 })) ∧
    (∀ (st : Resampler) (b : AudioBuffer), st.buffer = some b →
      st.input = [] → b.sample_len < st.sampleLen →
      st.next = (some (.ok (b.extend
          (AudioBuffer.new b.number_of_channels (st.sampleLen - b.sample_len) st.sampleRate))),
        { st with buffer := none })) := by
  refine ⟨by decide, by decide, rfl, ?_, ?_⟩
  · intro st b hb hlt
    have h1 : ¬ b.sample_len < st.sampleLen := by omega
    have h2 : ¬ b.sample_len = st.sampleLen := by omega
    cases hin : st.input with
    | nil => simp [Resampler.next, hb, hin, Resampler.nextLoop, h1, h2]
    | cons it rest => simp [Resampler.next, hb, hin, Resampler.nextLoop, h1, h2]
  · intro st b hb hin hlt
    simp [Resampler.next, hb, hin, Resampler.nextLoop, hlt]

/-- Witness for C4's universally quantified conjuncts at concrete states:
a stashed 3-sample buffer with chunk size 2 is split into `[1,2]` with
`[3]` stashed, and an exhausted input pads `[7]` to `[7,0,0]`. -/
theorem resampler_chunks_pad_and_stash_witness :
    ((⟨44100, 2, [], some ⟨[[1, 2, 3]], 44100⟩⟩ : Resampler).buffer =
        some ⟨[[1, 2, 3]], 44100⟩ ∧ (2 : ℕ) < (⟨[[1, 2, 3]], 44100⟩ : AudioBuffer).sample_len) ∧
    (Resampler.next ⟨44100, 2, [], some ⟨[[1, 2, 3]], 44100⟩⟩ =
      (some (.ok ((⟨[[1, 2, 3]], 44100⟩ : AudioBuffer).split_off 2).1),
       ⟨44100, 2, [], some ((⟨[[1, 2, 3]], 44100⟩ : AudioBuffer).split_off 2).2⟩)) ∧
    (Resampler.next ⟨44100, 3, [], some ⟨[[7]], 44100⟩⟩ =
      (some (.ok ((⟨[[7]], 44100⟩ : AudioBuffer).extend
          (AudioBuffer.new 1 (3 - 1) 44100))),
       ⟨44100, 3, [], none⟩)) := by
  refine ⟨⟨rfl, by decide⟩, ?_, ?_⟩
  · exact resampler_chunks_pad_and_stash.2.2.2.1
      ⟨44100, 2, [], some ⟨[[1, 2, 3]], 44100⟩⟩ ⟨[[1, 2, 3]], 44100⟩ rfl (by decide)
  · exact resampler_chunks_pad_and_stash.2.2.2.2
      ⟨44100, 3, [], some ⟨[[7]], 44100⟩⟩ ⟨[[7]], 44100⟩ rfl rfl (by decide)

/-! ## C7: extend then split_off round-trips -/

/-- Dropping the length of the left operand from each appended channel
recovers the right operand. -/
theorem zipWith_append_map_drop (l1 l2 : List (List ℚ)) (L : ℕ)
    (hlen : l1.length = l2.length) (hl : ∀ c ∈ l1, c.length = L) :
    (List.zipWith (· ++ ·) l1 l2).map (List.drop L) = l2 := by
  induction l1 generalizing l2 with
  | nil =>
    cases l2 with
    | nil => rfl
    | cons d ds => simp at hlen
  | cons c cs ih =>
    cases l2 with
    | nil => simp at hlen
    | cons d ds =>
      have hc : c.length = L := hl c (List.mem_cons_self c cs)
      simp only [List.zipWith, List.map]
      refine congrArg₂ _ ?_ ?_
      · rw [← hc]
        exact List.drop_left c d
      · exact ih ds (by simpa using hlen) (fun x hx => hl x (List.mem_cons_of_mem c hx))

/-- C7: for buffers of equal sample rate and channel count (the
preconditions `extend` asserts) with `b1` satisfying the data-model
invariant (equal channel lengths), extending a copy of `b1` with `b2`
and splitting it off at `b1`'s sample length returns `b2`.
`clone()` is the identity in the value-semantics model (copy-on-write
`Arc` data). -/
theorem extend_split_off_roundtrip (b1 b2 : AudioBuffer)
    (hrate : b1.sampleRate = b2.sampleRate)
    (hchan : b1.number_of_channels = b2.number_of_channels)
    (hwf : b1.wellFormed) :
    ((b1.extend b2).split_off b1.sample_len).2 = b2 := by
  cases b2 with
  | mk ch2 r2 =>
    unfold AudioBuffer.extend AudioBuffer.split_off
    simp only [AudioBuffer.mk.injEq]
    constructor
    · exact zipWith_append_map_drop b1.channels ch2 b1.sample_len hchan hwf
    · exact hrate

/-- Witness for C7 at concrete two-channel buffers. -/
theorem extend_split_off_roundtrip_witness :
    ((⟨[[1, 2], [3, 4]], 44100⟩ : AudioBuffer).sampleRate =
        (⟨[[5], [6]], 44100⟩ : AudioBuffer).sampleRate ∧
      (⟨[[1, 2], [3, 4]], 44100⟩ : AudioBuffer).number_of_channels =
        (⟨[[5], [6]], 44100⟩ : AudioBuffer).number_of_channels ∧
      (⟨[[1, 2], [3, 4]], 44100⟩ : AudioBuffer).wellFormed) ∧
    (((⟨[[1, 2], [3, 4]], 44100⟩ : AudioBuffer).extend ⟨[[5], [6]], 44100⟩).split_off
        (⟨[[1, 2], [3, 4]], 44100⟩ : AudioBuffer).sample_len).2 = ⟨[[5], [6]], 44100⟩ :=
  ⟨⟨rfl, rfl, by decide⟩,
    extend_split_off_roundtrip ⟨[[1, 2], [3, 4]], 44100⟩ ⟨[[5], [6]], 44100⟩ rfl rfl (by decide)⟩

/-! ## C3: AudioBuffer::resample -/

/-- The `usize` cast of a nonnegative value: `⌊x⌋` as a natural. -/
def natFloor (x : ℚ) : ℕ := (⌊x⌋).toNat

/-- The running emission target of the resample loop after `n` input
samples: `⌊n · rate⌋`. -/
def tgt (rate : ℚ) (n : ℕ) : ℕ := natFloor ((n : ℚ) * rate)

theorem tgt_mono {rate : ℚ} (hr : 0 ≤ rate) {m n : ℕ} (h : m ≤ n) :
    tgt rate m ≤ tgt rate n := by
  unfold tgt natFloor
  exact Int.toNat_le_toNat (Int.floor_le_floor
    (mul_le_mul_of_nonneg_right (by exact_mod_cast h) hr))

theorem tgt_zero (rate : ℚ) : tgt rate 0 = 0 := by
  simp [tgt, natFloor]

/-- The `target` computed in one step of `AudioBuffer.resampleGo` is `tgt rate (i+1)`. -/
theorem target_eq_tgt (rate : ℚ) (i : ℕ) :
    (⌊((i : ℚ) + 1) * rate⌋).toNat = tgt rate (i + 1) := by
  unfold tgt natFloor
  norm_num

/-- Unfolding one step of `AudioBuffer.resampleGo` when the running count equals the
running target. -/
theorem AudioBuffer.resampleGo_cons (rate : ℚ) (hr : 0 ≤ rate) (i : ℕ) (v : ℚ) (rest : List ℚ) :
    AudioBuffer.resampleGo rate i (tgt rate i) (v :: rest) =
      List.replicate (tgt rate (i + 1) - tgt rate i) v ++
        AudioBuffer.resampleGo rate (i + 1) (tgt rate (i + 1)) rest := by
  have h01 : tgt rate i ≤ tgt rate (i + 1) := tgt_mono hr (Nat.le_succ i)
  show List.replicate _ v ++ _ = _
  rw [target_eq_tgt]
  rw [min_eq_left h01]
  have hcur : tgt rate i + (tgt rate (i + 1) - tgt rate i) = tgt rate (i + 1) := by omega
  rw [hcur]

/-- Length of the resampled channel: the targets telescope to
`⌊(i + len) · rate⌋ - ⌊i · rate⌋`. -/
theorem AudioBuffer.resampleGo_length (rate : ℚ) (hr : 0 ≤ rate) :
    ∀ (data : List ℚ) (i : ℕ),
      (AudioBuffer.resampleGo rate i (tgt rate i) data).length =
        tgt rate (i + data.length) - tgt rate i := by
  intro data
  induction data with
  | nil => intro i; simp [AudioBuffer.resampleGo]
  | cons v rest ih =>
    intro i
    rw [AudioBuffer.resampleGo_cons rate hr]
    have h01 : tgt rate i ≤ tgt rate (i + 1) := tgt_mono hr (Nat.le_succ i)
    have h1L : tgt rate (i + 1) ≤ tgt rate (i + 1 + rest.length) :=
      tgt_mono hr (Nat.le_add_right _ _)
    have hidx : i + (v :: rest).length = i + 1 + rest.length := by
      simp
      omega
    rw [hidx]
    simp only [List.length_append, List.length_replicate, ih (i + 1)]
    omega

/-- Positional contract of the resampled channel: output position `p`
carries input sample `k` whenever `⌊k·rate⌋ ≤ p+⌊i·rate⌋ < ⌊(k+1)·rate⌋`
relative to the running offset. -/
theorem AudioBuffer.resampleGo_get? (rate : ℚ) (hr : 0 ≤ rate) :
    ∀ (data : List ℚ) (i p k : ℕ),
      tgt rate (i + k) - tgt rate i ≤ p →
      p < tgt rate (i + k + 1) - tgt rate i →
      (AudioBuffer.resampleGo rate i (tgt rate i) data).get? p = data.get? k := by
  intro data
  induction data with
  | nil =>
    intro i p k _ _
    simp [AudioBuffer.resampleGo]
  | cons v rest ih =>
    intro i p k h1 h2
    rw [AudioBuffer.resampleGo_cons rate hr]
    have h01 : tgt rate i ≤ tgt rate (i + 1) := tgt_mono hr (Nat.le_succ i)
    cases k with
    | zero =>
      have hp : p < tgt rate (i + 1) - tgt rate i := by
        have : i + 0 + 1 = i + 1 := by omega
        rw [this] at h2
        exact h2
      rw [List.get?_append (by simpa using hp)]
      simp [List.get?_eq_getElem?, List.getElem?_replicate, hp]
    | succ k' =>
      have hBC : tgt rate (i + 1) ≤ tgt rate (i + 1 + k') := tgt_mono hr (Nat.le_add_right _ _)
      have hCD : tgt rate (i + 1 + k') ≤ tgt rate (i + 1 + k' + 1) := tgt_mono hr (Nat.le_succ _)
      have e1 : i + (k' + 1) = i + 1 + k' := by omega
      have e2 : i + (k' + 1) + 1 = i + 1 + k' + 1 := by omega
      rw [e1] at h1
      rw [e2] at h2
      have hge : tgt rate (i + 1) - tgt rate i ≤ p := by omega
      rw [List.get?_append_right (by simpa using hge)]
      have h1' : tgt rate (i + 1 + k') - tgt rate (i + 1)
          ≤ p - (tgt rate (i + 1) - tgt rate i) := by omega
      have h2' : p - (tgt rate (i + 1) - tgt rate i)
          < tgt rate (i + 1 + k' + 1) - tgt rate (i + 1) := by omega
      have := ih (i + 1) (p - (tgt rate (i + 1) - tgt rate i)) k' h1' h2'
      simpa using this

/-- `resampleGo` at the initial state (index 0, no samples emitted). -/
theorem AudioBuffer.resampleGo_zero_length (rate : ℚ) (hr : 0 ≤ rate) (data : List ℚ) :
    (AudioBuffer.resampleGo rate 0 0 data).length = tgt rate data.length := by
  have h := AudioBuffer.resampleGo_length rate hr data 0
  rw [tgt_zero] at h
  simpa using h

/-- Positional contract of `resampleGo` at the initial state. -/
theorem AudioBuffer.resampleGo_zero_get? (rate : ℚ) (hr : 0 ≤ rate) (data : List ℚ)
    (p k : ℕ) (h1 : tgt rate k ≤ p) (h2 : p < tgt rate (k + 1)) :
    (AudioBuffer.resampleGo rate 0 0 data).get? p = data.get? k := by
  have h := AudioBuffer.resampleGo_get? rate hr data 0 p k
    (by simpa [tgt_zero] using h1) (by simpa [tgt_zero] using h2)
  rw [tgt_zero] at h
  exact h

/-- C3 amended: with ratio `r = new_rate/old_rate` (exact-arithmetic
reading of the `f32` ratio), `resample` keeps the channel count, sets
the rate field to the new rate, gives every channel the length
`⌊old_len · r⌋`, and output position `p` of a channel carries input
sample `k` for `⌊k · r⌋ ≤ p < ⌊(k+1) · r⌋` — i.e. sample `k` is
repeated `⌊(k+1)·r⌋ - ⌊k·r⌋` times, not the claim's "position `p` comes
from input `⌊p/r⌋`" (which fails whenever the ratio is not a positive
integer). -/
theorem resample_nearest_neighbour (b : AudioBuffer) (newRate : ℕ)
    (h0 : 0 < b.sampleRate) :
    (b.resample newRate).sampleRate = newRate ∧
    (b.resample newRate).channels.length = b.channels.length ∧
    ∀ c p k : ℕ,
      ((b.resample newRate).channels.getD c []).length =
        tgt ((newRate : ℚ) / (b.sampleRate : ℚ)) (b.channels.getD c []).length ∧
      (tgt ((newRate : ℚ) / (b.sampleRate : ℚ)) k ≤ p →
        p < tgt ((newRate : ℚ) / (b.sampleRate : ℚ)) (k + 1) →
        ((b.resample newRate).channels.getD c []).get? p =
          (b.channels.getD c []).get? k) := by
  have hr : 0 ≤ (newRate : ℚ) / (b.sampleRate : ℚ) :=
    div_nonneg (Nat.cast_nonneg _) (Nat.cast_nonneg _)
  by_cases heq : b.sampleRate = newRate
  · have hone : (newRate : ℚ) / (b.sampleRate : ℚ) = 1 := by
      rw [heq]
      exact div_self (by exact_mod_cast (heq ▸ h0).ne')
    have htgt : ∀ m : ℕ, tgt ((newRate : ℚ) / (b.sampleRate : ℚ)) m = m := by
      intro m
      rw [hone]
      simp [tgt, natFloor]
    have hres : b.resample newRate = b := by
      unfold AudioBuffer.resample
      rw [if_pos heq]
    refine ⟨by rw [hres, ← heq], by rw [hres], ?_⟩
    intro c p k
    rw [hres]
    simp only [htgt]
    refine ⟨trivial, ?_⟩
    intro hkp hpk
    have : p = k := by omega
    rw [this]
  · have hres : (b.resample newRate).channels =
        b.channels.map (AudioBuffer.resampleGo ((newRate : ℚ) / (b.sampleRate : ℚ)) 0 0) := by
      unfold AudioBuffer.resample
      rw [if_neg heq]
    have hrate : (b.resample newRate).sampleRate = newRate := by
      unfold AudioBuffer.resample
      rw [if_neg heq]
    refine ⟨hrate, by rw [hres]; simp, ?_⟩
    intro c p k
    by_cases hc : c < b.channels.length
    · have hget : (b.resample newRate).channels.getD c [] =
          AudioBuffer.resampleGo ((newRate : ℚ) / (b.sampleRate : ℚ)) 0 0 (b.channels.getD c []) := by
        rw [hres]
        rw [List.getD_eq_getElem _ _ (by simpa using hc), List.getD_eq_getElem _ _ hc]
        rw [List.getElem_map]
      constructor
      · rw [hget, AudioBuffer.resampleGo_zero_length _ hr]
      · intro hkp hpk
        rw [hget]
        exact AudioBuffer.resampleGo_zero_get? _ hr _ p k hkp hpk
    · have hc' : ¬ c < (b.resample newRate).channels.length := by
        rw [hres]
        simpa using hc
      have hgetL : (b.resample newRate).channels.getD c [] = [] := by
        rw [List.getD_eq_default _ _ (by omega : (b.resample newRate).channels.length ≤ c)]
      have hgetR : b.channels.getD c [] = [] := by
        rw [List.getD_eq_default _ _ (by omega : b.channels.length ≤ c)]
      rw [hgetL, hgetR]
      refine ⟨by simp [tgt_zero], ?_⟩
      intro _ _
      rfl

/-- Witness for C3's amended theorem at the spec's upmix example. -/
theorem resample_nearest_neighbour_witness :
    (0 : ℕ) < (⟨[[1, 2, 3, 4, 5]], 100⟩ : AudioBuffer).sampleRate ∧
    ((⟨[[1, 2, 3, 4, 5]], 100⟩ : AudioBuffer).resample 200).sampleRate = 200 :=
  ⟨by decide, (resample_nearest_neighbour ⟨[[1, 2, 3, 4, 5]], 100⟩ 200 (by decide)).1⟩

/-- C3 counterexample: resampling `[1,2,3,4,5]` from 200 Hz to 100 Hz
(ratio `r = 1/2`) yields `[2,4]`, but the claim's formula demands output
position 0 to carry input sample `⌊0/r⌋ = 0`, i.e. the value 1. -/
theorem resample_claim_formula_fails :
    ((⟨[[1, 2, 3, 4, 5]], 200⟩ : AudioBuffer).resample 100).channels = [[2, 4]] ∧
    ((⟨[[1, 2, 3, 4, 5]], 200⟩ : AudioBuffer).resample 100).sampleRate = 100 ∧
    (((⟨[[1, 2, 3, 4, 5]], 200⟩ : AudioBuffer).resample 100).channels.getD 0 []).get? 0 =
      some 2 ∧
    (([[1, 2, 3, 4, 5]] : List ChannelData).getD 0 []).get?
      (natFloor ((0 : ℚ) / ((100 : ℚ) / (200 : ℚ)))) = some 1 ∧
    (2 : ℚ) ≠ 1 := by
  have hch : ((⟨[[1, 2, 3, 4, 5]], 200⟩ : AudioBuffer).resample 100).channels = [[2, 4]] := by
    norm_num [AudioBuffer.resample, AudioBuffer.resampleGo, Int.toNat_ofNat]
    decide
  refine ⟨hch, by norm_num [AudioBuffer.resample], ?_, ?_, by norm_num⟩
  · rw [hch]
    rfl
  · have hidx : natFloor ((0 : ℚ) / ((100 : ℚ) / (200 : ℚ))) = 0 := by
      norm_num [natFloor]
    rw [hidx]
    rfl

/-! ## C1: the cached topological order after edge mutations -/

/-- The three edge mutations of the graph (`ConnectNode`,
`DisconnectNode`, `DisconnectAll` on the render side). -/
inductive EdgeMutation where
  | add (source dest : ℕ × ℕ)
  | remove (source dest : ℕ)
  | removeFrom (source : ℕ)
  deriving DecidableEq, Repr

/-- Dispatch of an edge mutation on the graph. -/
def Graph.applyEdgeMutation (g : Graph) : EdgeMutation → Graph
  | .add s d => g.add_edge s d
  | .remove s d => g.remove_edge s d
  | .removeFrom s => g.remove_edges_from s

/-- One edge leads from `a` to `b`. -/
def EdgeStep (edges : List Edge) (a b : ℕ) : Prop :=
  ∃ e ∈ edges, e.1.1 = a ∧ e.2.1 = b

/-- Directed reachability along edges. -/
def Reaches (edges : List Edge) : ℕ → ℕ → Prop :=
  Relation.ReflTransGen (EdgeStep edges)

/-- A ranking certifying acyclicity: every edge strictly increases the
rank from source to destination. -/
def Ranked (edges : List Edge) (rank : ℕ → ℕ) : Prop :=
  ∀ e ∈ edges, rank e.1.1 < rank e.2.1

instance (edges : List Edge) (rank : ℕ → ℕ) : Decidable (Ranked edges rank) := by
  unfold Ranked; infer_instance

/-- Number of potential visit targets not yet marked. -/
def unmarkedCount (edges : List Edge) (m : List ℕ) : ℕ :=
  ((nodeList edges).dedup.filter (fun x => decide (x ∉ m))).length

/-- The ordering invariant of the pre-reversal visit list: whenever an
edge's destination has been emitted, its source has been emitted
earlier in visit order, i.e. later in the prepend-built list. -/
def goodO (edges : List Edge) (o : List ℕ) : Prop :=
  ∀ e ∈ edges, e.2.1 ∈ o → e.1.1 ∈ o ∧ beforeIn o e.2.1 e.1.1

theorem rank_le_of_reaches {edges : List Edge} {rank : ℕ → ℕ}
    (hR : Ranked edges rank) {x y : ℕ} (h : Reaches edges x y) :
    rank x ≤ rank y := by
  induction h with
  | refl => exact le_refl _
  | tail _ hstep ih =>
    obtain ⟨e, he, h1, h2⟩ := hstep
    have hlt := hR e he
    rw [h1, h2] at hlt
    omega

theorem mem_childrenList_iff {edges : List Edge} {n c : ℕ} :
    c ∈ childrenList edges n ↔ ∃ e ∈ edges, e.2.1 = n ∧ e.1.1 = c := by
  unfold childrenList
  simp only [List.mem_map, List.mem_filter, beq_iff_eq]
  constructor
  · rintro ⟨e, ⟨he, hdst⟩, hsrc⟩
    exact ⟨e, he, hdst, hsrc⟩
  · rintro ⟨e, he, hdst, hsrc⟩
    exact ⟨e, ⟨he, hdst⟩, hsrc⟩

theorem edgeStep_of_child {edges : List Edge} {n c : ℕ}
    (h : c ∈ childrenList edges n) : EdgeStep edges c n := by
  obtain ⟨e, he, hdst, hsrc⟩ := mem_childrenList_iff.mp h
  exact ⟨e, he, hsrc, hdst⟩

theorem child_mem_nodeList {edges : List Edge} {n c : ℕ}
    (h : c ∈ childrenList edges n) : c ∈ nodeList edges := by
  obtain ⟨e, he, _, hsrc⟩ := mem_childrenList_iff.mp h
  unfold nodeList
  exact List.mem_cons_of_mem _ (List.mem_map.mpr ⟨e, he, hsrc⟩)

theorem unmarkedCount_le {edges : List Edge} {m m' : List ℕ}
    (h : ∀ x ∈ m, x ∈ m') : unmarkedCount edges m' ≤ unmarkedCount edges m := by
  unfold unmarkedCount
  refine List.Sublist.length_le (List.monotone_filter_right _ ?_)
  intro a ha
  simp only [decide_eq_true_eq] at ha ⊢
  intro hmem
  exact ha (h a hmem)

theorem unmarkedCount_cons_lt {edges : List Edge} {m : List ℕ} {n : ℕ}
    (h1 : n ∈ nodeList edges) (h2 : n ∉ m) :
    unmarkedCount edges (n :: m) < unmarkedCount edges m := by
  unfold unmarkedCount
  have hsub : List.Sublist
      ((nodeList edges).dedup.filter (fun x => decide (x ∉ n :: m)))
      ((nodeList edges).dedup.filter (fun x => decide (x ∉ m))) := by
    refine List.monotone_filter_right _ ?_
    intro a ha
    simp only [decide_eq_true_eq, List.mem_cons] at ha ⊢
    intro hmem
    exact ha (Or.inr hmem)
  refine lt_of_le_of_ne (List.Sublist.length_le hsub) ?_
  intro heq
  have hEq := List.Sublist.eq_of_length hsub heq
  have hn2 : n ∈ (nodeList edges).dedup.filter (fun x => decide (x ∉ m)) := by
    simp only [List.mem_filter, List.mem_dedup, decide_eq_true_eq]
    exact ⟨h1, h2⟩
  rw [← hEq] at hn2
  simp only [List.mem_filter, List.mem_cons, decide_eq_true_eq] at hn2
  exact hn2.2 (Or.inl trivial)

theorem unmarkedCount_nil (edges : List Edge) :
    unmarkedCount edges [] = (nodeList edges).dedup.length := by
  unfold unmarkedCount
  simp

theorem beforeIn_cons {l : List ℕ} {a b x : ℕ} (h : beforeIn l a b) :
    beforeIn (x :: l) a b := by
  obtain ⟨i, j, hij, hi, hj⟩ := h
  exact ⟨i + 1, j + 1, by omega, hi, hj⟩

theorem beforeIn_head {l : List ℕ} {a b : ℕ} (h : b ∈ l) : beforeIn (a :: l) a b := by
  obtain ⟨j, hj⟩ := List.mem_iff_get?.mp h
  exact ⟨0, j + 1, by omega, rfl, hj⟩

theorem beforeIn_append_left {l pre : List ℕ} {a b : ℕ} (h : beforeIn l a b) :
    beforeIn (pre ++ l) a b := by
  obtain ⟨i, j, hij, hi, hj⟩ := h
  refine ⟨pre.length + i, pre.length + j, by omega, ?_, ?_⟩
  · rw [List.get?_append_right (by omega)]
    simpa using hi
  · rw [List.get?_append_right (by omega)]
    simpa using hj

theorem beforeIn_reverse {l : List ℕ} {a b : ℕ} (h : beforeIn l a b) :
    beforeIn l.reverse b a := by
  obtain ⟨i, j, hij, hi, hj⟩ := h
  have hjl : j < l.length := (List.get?_eq_some.mp hj).1
  have hil : i < l.length := (List.get?_eq_some.mp hi).1
  refine ⟨l.length - 1 - j, l.length - 1 - i, by omega, ?_, ?_⟩
  · rw [List.get?_reverse (by omega)]
    have : l.length - 1 - (l.length - 1 - j) = j := by omega
    rw [this]
    exact hj
  · rw [List.get?_reverse (by omega)]
    have : l.length - 1 - (l.length - 1 - i) = i := by omega
    rw [this]
    exact hi

theorem mem_of_beforeIn_left {l : List ℕ} {a b : ℕ} (h : beforeIn l a b) : a ∈ l := by
  obtain ⟨i, _, _, hi, _⟩ := h
  exact List.get?_mem hi

/-- Master invariant of the depth-first visit, by induction on the fuel.
For a rank-certified (acyclic) edge set, one call of `visitF` starting
from a state whose emitted list `o` is a nodup subset of the marked list
`m` satisfying the ordering invariant, and whose marked-but-unemitted
nodes are exactly nodes reachable from the current node `n`:
(1) preserves the marked nodes, (2) only prepends previously unmarked
nodes to the emitted list, (3) keeps the emitted list inside the marked
list, (4) keeps it nodup, (5) preserves the ordering invariant,
(6) emits every node it newly marks, and (7) emits `n` itself when it
was unmarked. -/
theorem visitF_preserves (rank : ℕ → ℕ) :
    ∀ (fuel : ℕ) (edges : List Edge) (n : ℕ) (m o : List ℕ),
      Ranked edges rank →
      n ∈ nodeList edges →
      unmarkedCount edges m < fuel →
      (∀ x ∈ o, x ∈ m) →
      o.Nodup →
      goodO edges o →
      (∀ a ∈ m, a ∉ o → Reaches edges n a) →
      (∀ x ∈ m, x ∈ (visitF fuel edges n (m, o)).1) ∧
      (∃ pre, (visitF fuel edges n (m, o)).2 = pre ++ o ∧ ∀ x ∈ pre, x ∉ m) ∧
      (∀ x ∈ (visitF fuel edges n (m, o)).2, x ∈ (visitF fuel edges n (m, o)).1) ∧
      (visitF fuel edges n (m, o)).2.Nodup ∧
      goodO edges (visitF fuel edges n (m, o)).2 ∧
      (∀ x ∈ (visitF fuel edges n (m, o)).1, x ∉ m → x ∈ (visitF fuel edges n (m, o)).2) ∧
      (n ∉ m → n ∈ (visitF fuel edges n (m, o)).2) := by
  intro fuel
  induction fuel with
  | zero =>
    intro edges n m o _ _ hfuel _ _ _ _
    exact absurd hfuel (by omega)
  | succ fuel ih =>
    intro edges n m o hR hn hfuel hsub hnd hgood hact
    by_cases hmem : n ∈ m
    · have hv : visitF (fuel + 1) edges n (m, o) = (m, o) := by
        show (if n ∈ m then (m, o) else _) = (m, o)
        rw [if_pos hmem]
      rw [hv]
      refine ⟨fun x hx => hx, ⟨[], rfl, by simp⟩, hsub, hnd, hgood, ?_, ?_⟩
      · intro x hx hxm
        exact absurd hx hxm
      · intro hnm
        exact absurd hmem hnm
    · have hfold : ∀ (cs : List ℕ), (∀ c ∈ cs, c ∈ childrenList edges n) →
          ∀ (m₁ o₁ : List ℕ),
            unmarkedCount edges m₁ < fuel →
            (∀ x ∈ o₁, x ∈ m₁) → o₁.Nodup → goodO edges o₁ →
            (∀ a ∈ m₁, a ∉ o₁ → Reaches edges n a) →
            n ∈ m₁ →
            (∀ x ∈ m₁, x ∈ (cs.foldl (fun t c => visitF fuel edges c t) (m₁, o₁)).1) ∧
            (∃ pre, (cs.foldl (fun t c => visitF fuel edges c t) (m₁, o₁)).2 = pre ++ o₁ ∧
              ∀ x ∈ pre, x ∉ m₁) ∧
            (∀ x ∈ (cs.foldl (fun t c => visitF fuel edges c t) (m₁, o₁)).2,
              x ∈ (cs.foldl (fun t c => visitF fuel edges c t) (m₁, o₁)).1) ∧
            (cs.foldl (fun t c => visitF fuel edges c t) (m₁, o₁)).2.Nodup ∧
            goodO edges (cs.foldl (fun t c => visitF fuel edges c t) (m₁, o₁)).2 ∧
            (∀ x ∈ (cs.foldl (fun t c => visitF fuel edges c t) (m₁, o₁)).1,
              x ∉ m₁ → x ∈ (cs.foldl (fun t c => visitF fuel edges c t) (m₁, o₁)).2) ∧
            (∀ c ∈ cs, c ∈ (cs.foldl (fun t c => visitF fuel edges c t) (m₁, o₁)).2 ∨
              (c ∈ m₁ ∧ c ∉ o₁)) := by
        intro cs
        induction cs with
        | nil =>
          intro _ m₁ o₁ _ hsub₁ hnd₁ hgood₁ _ _
          refine ⟨fun x hx => hx, ⟨[], rfl, by simp⟩, hsub₁, hnd₁, hgood₁, ?_, by simp⟩
          intro x hx hxm
          exact absurd hx hxm
        | cons c cs' ihc =>
          intro hcs m₁ o₁ hfuel₁ hsub₁ hnd₁ hgood₁ hact₁ hn₁
          have hc : c ∈ childrenList edges n := hcs c (List.mem_cons_self _ _)
          have hhead := ih edges c m₁ o₁ hR (child_mem_nodeList hc) hfuel₁ hsub₁ hnd₁ hgood₁
            (fun a ha hao =>
              Relation.ReflTransGen.head (edgeStep_of_child hc) (hact₁ a ha hao))
          obtain ⟨K1, ⟨pre₁, hpre₁, hpre₁m⟩, K3, K4, K5, K9, K7⟩ := hhead
          have hactive₁ : ∀ a, a ∈ (visitF fuel edges c (m₁, o₁)).1 →
              a ∉ (visitF fuel edges c (m₁, o₁)).2 → a ∈ m₁ ∧ a ∉ o₁ := by
            intro a ha hao
            constructor
            · by_contra ham
              exact hao (K9 a ha ham)
            · intro haul
              refine hao ?_
              rw [hpre₁]
              exact List.mem_append_right _ haul
          have htail := ihc (fun x hx => hcs x (List.mem_cons_of_mem _ hx))
            (visitF fuel edges c (m₁, o₁)).1 (visitF fuel edges c (m₁, o₁)).2
            (lt_of_le_of_lt (unmarkedCount_le K1) hfuel₁)
            K3 K4 K5
            (fun a ha hao => hact₁ a (hactive₁ a ha hao).1 (hactive₁ a ha hao).2)
            (K1 n hn₁)
          obtain ⟨F1, ⟨pre₂, hpre₂, hpre₂m⟩, F3, F4, F5, F9, FC⟩ := htail
          have hred : (c :: cs').foldl (fun t c => visitF fuel edges c t) (m₁, o₁) =
              cs'.foldl (fun t c => visitF fuel edges c t)
                ((visitF fuel edges c (m₁, o₁)).1, (visitF fuel edges c (m₁, o₁)).2) := rfl
          rw [hred]
          refine ⟨?_, ?_, F3, F4, F5, ?_, ?_⟩
          · exact fun x hx => F1 x (K1 x hx)
          · refine ⟨pre₂ ++ pre₁, ?_, ?_⟩
            · rw [hpre₂, hpre₁, List.append_assoc]
            · intro x hx
              rcases List.mem_append.mp hx with h | h
              · intro hxm
                exact (hpre₂m x h) (K1 x hxm)
              · exact hpre₁m x h
          · intro x hx hxm
            by_cases hx1 : x ∈ (visitF fuel edges c (m₁, o₁)).1
            · by_cases hx2 : x ∈ (visitF fuel edges c (m₁, o₁)).2
              · rw [hpre₂]
                exact List.mem_append_right _ hx2
              · exact absurd (hactive₁ x hx1 hx2).1 hxm
            · exact F9 x hx hx1
          · intro c' hc'
            rcases List.mem_cons.mp hc' with rfl | hmem'
            · by_cases hcm : c' ∈ m₁
              · by_cases hco : c' ∈ o₁
                · left
                  rw [hpre₂, hpre₁]
                  exact List.mem_append_right _ (List.mem_append_right _ hco)
                · right
                  exact ⟨hcm, hco⟩
              · left
                rw [hpre₂]
                exact List.mem_append_right _ (K7 hcm)
            · rcases FC c' hmem' with h | h
              · left
                exact h
              · right
                exact hactive₁ c' h.1 h.2
      have hfuel' : unmarkedCount edges (n :: m) < fuel := by
        have := unmarkedCount_cons_lt hn hmem
        omega
      have happ := hfold (childrenList edges n) (fun c hc => hc) (n :: m) o
        hfuel'
        (fun x hx => List.mem_cons_of_mem _ (hsub x hx))
        hnd hgood
        (fun a ha hao => by
          rcases List.mem_cons.mp ha with rfl | ham
          · exact Relation.ReflTransGen.refl
          · exact hact a ham hao)
        (List.mem_cons_self _ _)
      obtain ⟨F1, ⟨pre, hpre, hprem⟩, F3, F4, F5, F9, FC⟩ := happ
      have hchild : ∀ c ∈ childrenList edges n,
          c ∈ ((childrenList edges n).foldl (fun t c => visitF fuel edges c t) (n :: m, o)).2 := by
        intro c hc
        rcases FC c hc with h | h
        · exact h
        · exfalso
          obtain ⟨e, he, h1, h2⟩ := edgeStep_of_child hc
          have hlt := hR e he
          rw [h1, h2] at hlt
          rcases List.mem_cons.mp h.1 with rfl | hcm
          · omega
          · have hre : Reaches edges n c := hact c hcm h.2
            have hle : rank n ≤ rank c := rank_le_of_reaches hR hre
            omega
      have hnotin :
          n ∉ ((childrenList edges n).foldl (fun t c => visitF fuel edges c t) (n :: m, o)).2 := by
        intro hns
        rw [hpre] at hns
        rcases List.mem_append.mp hns with h | h
        · exact (hprem n h) (List.mem_cons_self _ _)
        · exact hmem (hsub n h)
      have hv : visitF (fuel + 1) edges n (m, o) =
          (((childrenList edges n).foldl (fun t c => visitF fuel edges c t) (n :: m, o)).1,
            n :: ((childrenList edges n).foldl (fun t c => visitF fuel edges c t) (n :: m, o)).2) := by
        show (if n ∈ m then (m, o) else _) = _
        rw [if_neg hmem]
      rw [hv]
      refine ⟨?_, ?_, ?_, ?_, ?_, ?_, ?_⟩
      · exact fun x hx => F1 x (List.mem_cons_of_mem _ hx)
      · refine ⟨n :: pre, by rw [hpre]; rfl, ?_⟩
        intro x hx
        rcases List.mem_cons.mp hx with rfl | hxp
        · exact hmem
        · intro hxm
          exact (hprem x hxp) (List.mem_cons_of_mem _ hxm)
      · intro x hx
        rcases List.mem_cons.mp hx with rfl | hxs
        · exact F1 x (List.mem_cons_self _ _)
        · exact F3 x hxs
      · exact List.nodup_cons.mpr ⟨hnotin, F4⟩
      · intro e he hdst
        rcases List.mem_cons.mp hdst with hdn | hds
        · have hsrc : e.1.1 ∈ childrenList edges n :=
            mem_childrenList_iff.mpr ⟨e, he, hdn, rfl⟩
          have hsrc2 := hchild _ hsrc
          refine ⟨List.mem_cons_of_mem _ hsrc2, ?_⟩
          rw [hdn]
          exact beforeIn_head hsrc2
        · obtain ⟨hsrc, hbef⟩ := F5 e he hds
          exact ⟨List.mem_cons_of_mem _ hsrc, beforeIn_cons hbef⟩
      · intro x hx hxm
        by_cases hxn : x = n
        · rw [hxn]
          exact List.mem_cons_self _ _
        · refine List.mem_cons_of_mem _ (F9 x hx ?_)
          intro hxm1
          rcases List.mem_cons.mp hxm1 with h | h
          · exact hxn h
          · exact hxm h
      · intro _
        exact List.mem_cons_self _ _

/-- The ordering guarantee of `order_nodes` for rank-certified edge sets:
for every edge whose destination appears in the computed order, the
source appears strictly before it. -/
theorem orderNodes_respects_edges (edges : List Edge) (rank : ℕ → ℕ)
    (hR : Ranked edges rank) :
    ∀ e ∈ edges, e.2.1 ∈ orderNodes edges →
      beforeIn (orderNodes edges) e.1.1 e.2.1 := by
  have h := visitF_preserves rank ((nodeList edges).dedup.length + 1) edges 0 [] []
    hR (List.mem_cons_self _ _) (by rw [unmarkedCount_nil]; omega)
    (by intro x hx; exact absurd hx (List.not_mem_nil _))
    List.nodup_nil
    (by intro e _ hd; exact absurd hd (List.not_mem_nil _))
    (by intro a ha; exact absurd ha (List.not_mem_nil _))
  obtain ⟨_, _, _, _, K5, _, _⟩ := h
  intro e he hdst
  unfold orderNodes at hdst ⊢
  rw [List.mem_reverse] at hdst
  exact beforeIn_reverse (K5 e he hdst).2

/-- C1 amended: after any edge mutation, for every edge remaining in the
edge set whose destination node appears in the cached topological order,
the source node appears strictly before it — provided the resulting edge
set is acyclic, certified by a rank function that every edge strictly
increases.  Two restrictions are forced by the code: nodes unreachable
from the destination node 0 are excluded from the order entirely (so an
orphaned edge's endpoints need not appear, see the counterexample), and
on a cyclic edge set the marking produces an order that cannot satisfy
the property. -/
theorem graph_order_places_sources_first (g : Graph) (mu : EdgeMutation)
    (rank : ℕ → ℕ)
    (hrank : Ranked (g.applyEdgeMutation mu).edges rank) :
    ∀ e ∈ (g.applyEdgeMutation mu).edges,
      e.2.1 ∈ (g.applyEdgeMutation mu).ordered →
      beforeIn (g.applyEdgeMutation mu).ordered e.1.1 e.2.1 := by
  have hord : (g.applyEdgeMutation mu).ordered =
      orderNodes (g.applyEdgeMutation mu).edges := by
    cases mu <;> rfl
  rw [hord]
  exact fun e he hdst => orderNodes_respects_edges _ rank hrank e he hdst

/-- Witness for C1's amended theorem: adding the edge `1 → 0` to a fresh
graph puts 1 strictly before 0 in the order. -/
theorem graph_order_places_sources_first_witness :
    Ranked ((Graph.new Processor.testNode testConfig).applyEdgeMutation
        (EdgeMutation.add (1, 0) (0, 0))).edges
      (fun x => if x = 0 then 1 else 0) ∧
    beforeIn (((Graph.new Processor.testNode testConfig).applyEdgeMutation
        (EdgeMutation.add (1, 0) (0, 0))).ordered) 1 0 :=
  ⟨by decide,
    graph_order_places_sources_first (Graph.new Processor.testNode testConfig)
      (EdgeMutation.add (1, 0) (0, 0)) (fun x => if x = 0 then 1 else 0)
      (by decide) ((1, 0), (0, 0)) (by decide) (by decide)⟩

/-- C1 counterexample (the spec's own graph-ordering scenario): with edges
`1→0`, `2→1`, `3→0`, removing `1→0` leaves the edge `2→1` in the edge
set, but the recomputed order is `[3, 0]` — neither 2 nor 1 appears, so
the order does not place the source 2 strictly before the destination 1,
refuting the claim as stated for every remaining edge. -/
theorem graph_order_claim_fails_for_orphan_edge :
    (((2, 0), (1, 0)) : Edge) ∈
      (((((Graph.new Processor.testNode testConfig).add_edge (1, 0) (0, 0)).add_edge
          (2, 0) (1, 0)).add_edge (3, 0) (0, 0)).remove_edge 1 0).edges ∧
    (((((Graph.new Processor.testNode testConfig).add_edge (1, 0) (0, 0)).add_edge
          (2, 0) (1, 0)).add_edge (3, 0) (0, 0)).remove_edge 1 0).ordered = [3, 0] ∧
    ¬ beforeIn ((((((Graph.new Processor.testNode testConfig).add_edge (1, 0)
          (0, 0)).add_edge (2, 0) (1, 0)).add_edge (3, 0) (0, 0)).remove_edge 1 0).ordered)
        2 1 := by
  refine ⟨by decide, by decide, ?_⟩
  intro hbef
  obtain ⟨i, j, hij, hi, hj⟩ := hbef
  have h1 : (1 : ℕ) ∈ ((((((Graph.new Processor.testNode testConfig).add_edge (1, 0)
      (0, 0)).add_edge (2, 0) (1, 0)).add_edge (3, 0) (0, 0)).remove_edge 1 0).ordered) :=
    List.get?_mem hj
  revert h1
  decide

end WebAudio
